import Mathlib

/-!
Verification of the Paraboloid tutorial component (src/Paraboloid.ipynb).

The notebook defines a single OpenMDAO `Component` subclass `Paraboloid`:

* `__init__` adds params `x` and `y` with default value `0.0` and an output
  `f_xy` with `shape=1` (hence initial scalar value `0.0`);
* `solve_nonlinear(params, unknowns, resids)` reads `x = params['x']`,
  `y = params['y']` and writes
  `unknowns['f_xy'] = (x-3.0)**2 + x*y + (y+4.0)**2 - 3.0`;
* `linearize(params, unknowns, resids)` reads `x`, `y` the same way, builds a
  fresh dict `J = {}`, sets `J['f_xy','x'] = 2.0*x - 6.0 + y` and
  `J['f_xy','y'] = 2.0*y + 8.0 + x`, and returns `J`.

We embed the component shallowly: Python dicts become association lists with
Python's semantics (first-match lookup; assignment replaces in place when the
key exists, else appends), floating-point scalars become exact rationals `ℚ`,
and the `KeyError` a missing key would raise becomes `Option`. Mutation of
the `unknowns` argument becomes explicit state passing: `solve_nonlinear`
returns the post-call `(params, unknowns, resids)` triple, with the returned
`params` and `resids` reproducing the arguments because the Python body never
assigns to them.
-/

/-- A Python dict with keys `κ` and rational values, as an association list in
insertion order. -/
abbrev Dict (κ : Type) := List (κ × ℚ)

/-- Python `d[k]`: first-match lookup, `none` for the `KeyError` case. -/
def dictGet {κ : Type} [DecidableEq κ] : Dict κ → κ → Option ℚ
  | [], _ => none
  | (k2, v) :: rest, k => if k2 = k then some v else dictGet rest k

/-- Python `d[k] = v`: replace the value in place when the key is present,
otherwise append the new binding at the end. -/
def dictSet {κ : Type} [DecidableEq κ] : Dict κ → κ → ℚ → Dict κ
  | [], k, v => [(k, v)]
  | (k2, v2) :: rest, k, v =>
      if k2 = k then (k, v) :: rest else (k2, v2) :: dictSet rest k v

/-- Keys of a dict, in insertion order (Python `list(d.keys())`). -/
def dictKeys {κ : Type} (d : Dict κ) : List κ := d.map Prod.fst

/-- The params/unknowns/resids dicts of the component, keyed by variable
name. -/
abbrev VarDict := Dict String

/-- The Jacobian dict returned by `linearize`, keyed by
`(unknown, param)` pairs. -/
abbrev JacDict := Dict (String × String)

/-- The closed-form objective from the body of `Paraboloid.solve_nonlinear`:
`(x-3.0)**2 + x*y + (y+4.0)**2 - 3.0`. -/
def fxy (x y : ℚ) : ℚ := (x - 3) ^ 2 + x * y + (y + 4) ^ 2 - 3

/-- The `J['f_xy','x']` entry computed by `Paraboloid.linearize`:
`2.0*x - 6.0 + y`. -/
def dfdx (x y : ℚ) : ℚ := 2 * x - 6 + y

/-- The `J['f_xy','y']` entry computed by `Paraboloid.linearize`:
`2.0*y + 8.0 + x`. -/
def dfdy (x y : ℚ) : ℚ := 2 * y + 8 + x

/-- `Paraboloid.solve_nonlinear`: read `x` and `y` from `params` (a missing
key is the `KeyError` / `none` case), then assign
`unknowns['f_xy'] = (x-3.0)**2 + x*y + (y+4.0)**2 - 3.0`. The result is the
post-call state of the three dict arguments; `params` and `resids` are
returned as received because the body never writes to them. -/
def solve_nonlinear (params unknowns resids : VarDict) :
    Option (VarDict × VarDict × VarDict) :=
  match dictGet params "x", dictGet params "y" with
  | some x, some y => some (params, dictSet unknowns "f_xy" (fxy x y), resids)
  | _, _ => none

/-- `Paraboloid.linearize`: read `x` and `y` from `params`, build `J = {}`,
set `J['f_xy','x'] = 2.0*x - 6.0 + y` and `J['f_xy','y'] = 2.0*y + 8.0 + x`,
and return `J`. The dict arguments are read-only here, so only the fresh
Jacobian comes back. -/
def linearize (params unknowns resids : VarDict) : Option JacDict :=
  match dictGet params "x", dictGet params "y" with
  | some x, some y =>
      some (dictSet (dictSet [] ("f_xy", "x") (dfdx x y))
        ("f_xy", "y") (dfdy x y))
  | _, _ => none

/-- `Paraboloid.__init__`: `add_param('x', val=0.0)` then
`add_param('y', val=0.0)`. -/
def init_params : VarDict := dictSet (dictSet [] "x" 0) "y" 0

/-- `Paraboloid.__init__`: `add_output('f_xy', shape=1)`; per the notebook
text, `shape=1` initializes the value to the scalar `0.0`. -/
def init_unknowns : VarDict := dictSet [] "f_xy" 0

/-- The residuals dict of the component: no states are declared, so it holds
no entries. -/
def init_resids : VarDict := []

/-- Observation used in several statements: the value of `unknowns['f_xy']`
after a call to `solve_nonlinear`. -/
def run_fxy (params unknowns resids : VarDict) : Option ℚ :=
  match solve_nonlinear params unknowns resids with
  | some (_, u2, _) => dictGet u2 "f_xy"
  | none => none

/-- Observation used in several statements: the entry of the Jacobian dict
returned by `linearize` at a given `(unknown, param)` key. -/
def run_jac (params unknowns resids : VarDict) (key : String × String) : Option ℚ :=
  match linearize params unknowns resids with
  | some J => dictGet J key
  | none => none

/-- All entries of a dict except those stored under key `k`, in order; used to
state that an update at `k` leaves every other entry untouched. -/
def dictEraseKey {κ : Type} [DecidableEq κ] : Dict κ → κ → Dict κ
  | [], _ => []
  | (k2, v2) :: rest, k =>
      if k2 = k then dictEraseKey rest k else (k2, v2) :: dictEraseKey rest k

/-- Modelled from the spec: the multiplication-form evaluator
`(x−3)*(x−3) + x*y + (y+4)*(y+4) − 3` that §4.1 prescribes for the
exponentiation-by-2 steps. Kept separate from `fxy`, which embeds the
notebook's `**2` form, so the two can be compared. -/
def fxy_mulform (x y : ℚ) : ℚ := (x - 3) * (x - 3) + x * y + (y + 4) * (y + 4) - 3

/-- Modelled from the spec: the central-difference estimate
`(f(x+h,y) − f(x−h,y))/(2h)` of `∂f/∂x` used by the spec's gradient
consistency check. -/
def centralDiffX (x y h : ℚ) : ℚ := (fxy (x + h) y - fxy (x - h) y) / (2 * h)

/-- Modelled from the spec: the central-difference estimate
`(f(x,y+h) − f(x,y−h))/(2h)` of `∂f/∂y` used by the spec's gradient
consistency check. -/
def centralDiffY (x y h : ℚ) : ℚ := (fxy x (y + h) - fxy x (y - h)) / (2 * h)

/-- The objective expression over the reals, for stating that the `linearize`
entries are its exact partial derivatives. -/
noncomputable def fxyReal (x y : ℝ) : ℝ := (x - 3) ^ 2 + x * y + (y + 4) ^ 2 - 3

/- ### Dictionary lemmas -/

theorem dictGet_dictSet_self {κ : Type} [DecidableEq κ] (d : Dict κ) (k : κ) (v : ℚ) :
    dictGet (dictSet d k v) k = some v := by
  induction d with
  | nil => simp [dictGet, dictSet]
  | cons hd tl ih =>
      obtain ⟨k2, v2⟩ := hd
      by_cases hk : k2 = k
      · simp [dictGet, dictSet, hk]
      · simp [dictGet, dictSet, hk, ih]

theorem dictGet_dictSet_ne {κ : Type} [DecidableEq κ] (d : Dict κ) (k k2 : κ) (v : ℚ)
    (h : k2 ≠ k) : dictGet (dictSet d k v) k2 = dictGet d k2 := by
  induction d with
  | nil => simp [dictGet, dictSet, Ne.symm h]
  | cons hd tl ih =>
      obtain ⟨k3, v3⟩ := hd
      by_cases hk : k3 = k
      · subst hk
        simp [dictGet, dictSet, Ne.symm h]
      · simp [dictGet, dictSet, hk, ih]

theorem dictSet_dictSet_same {κ : Type} [DecidableEq κ] (d : Dict κ) (k : κ) (v w : ℚ) :
    dictSet (dictSet d k v) k w = dictSet d k w := by
  induction d with
  | nil => simp [dictSet]
  | cons hd tl ih =>
      obtain ⟨k2, v2⟩ := hd
      by_cases hk : k2 = k
      · simp [dictSet, hk]
      · simp [dictSet, hk, ih]

/- ### Unfolding lemmas for the component -/

theorem solve_nonlinear_eq (params unknowns resids : VarDict) (x y : ℚ)
    (hx : dictGet params "x" = some x) (hy : dictGet params "y" = some y) :
    solve_nonlinear params unknowns resids =
      some (params, dictSet unknowns "f_xy" (fxy x y), resids) := by
  simp [solve_nonlinear, hx, hy]

theorem linearize_eq (params unknowns resids : VarDict) (x y : ℚ)
    (hx : dictGet params "x" = some x) (hy : dictGet params "y" = some y) :
    linearize params unknowns resids =
      some (dictSet (dictSet [] ("f_xy", "x") (dfdx x y))
        ("f_xy", "y") (dfdy x y)) := by
  simp [linearize, hx, hy]

theorem run_fxy_eq (params unknowns resids : VarDict) (x y : ℚ)
    (hx : dictGet params "x" = some x) (hy : dictGet params "y" = some y) :
    run_fxy params unknowns resids = some (fxy x y) := by
  simp [run_fxy, solve_nonlinear_eq params unknowns resids x y hx hy,
    dictGet_dictSet_self]

theorem dictEraseKey_dictSet {κ : Type} [DecidableEq κ] (d : Dict κ) (k : κ) (v : ℚ) :
    dictEraseKey (dictSet d k v) k = dictEraseKey d k := by
  induction d with
  | nil => simp [dictEraseKey, dictSet]
  | cons hd tl ih =>
      obtain ⟨k2, v2⟩ := hd
      by_cases hk : k2 = k
      · subst hk
        simp [dictEraseKey, dictSet]
      · simp [dictEraseKey, dictSet, hk, ih]

theorem run_jac_x_eq (params unknowns resids : VarDict) (x y : ℚ)
    (hx : dictGet params "x" = some x) (hy : dictGet params "y" = some y) :
    run_jac params unknowns resids ("f_xy", "x") = some (dfdx x y) := by
  simp only [run_jac, linearize_eq params unknowns resids x y hx hy]
  rw [dictGet_dictSet_ne _ _ _ _ (by decide), dictGet_dictSet_self]

theorem run_jac_y_eq (params unknowns resids : VarDict) (x y : ℚ)
    (hx : dictGet params "x" = some x) (hy : dictGet params "y" = some y) :
    run_jac params unknowns resids ("f_xy", "y") = some (dfdy x y) := by
  simp only [run_jac, linearize_eq params unknowns resids x y hx hy]
  rw [dictGet_dictSet_self]

theorem fxyReal_hasDerivAt_fst (a b : ℝ) :
    HasDerivAt (fun t => fxyReal t b) (2 * a - 6 + b) a := by
  have h1 : HasDerivAt (fun t : ℝ => t - 3) 1 a := (hasDerivAt_id a).sub_const 3
  have h2 := h1.pow 2
  have h3 : HasDerivAt (fun t : ℝ => t * b) b a := by
    simpa using (hasDerivAt_id a).mul_const b
  have h5 := ((h2.add h3).add_const ((b + 4) ^ 2)).sub_const 3
  have h6 : HasDerivAt (fun t => fxyReal t b)
      ((2 : ℕ) * (a - 3) ^ (2 - 1) * 1 + b) a := h5
  convert h6 using 1
  push_cast
  ring

theorem fxyReal_hasDerivAt_snd (a b : ℝ) :
    HasDerivAt (fun t => fxyReal a t) (2 * b + 8 + a) b := by
  have h1 : HasDerivAt (fun t : ℝ => a * t) (a * 1) b := (hasDerivAt_id b).const_mul a
  have h2 := ((hasDerivAt_id b).add_const 4).pow 2
  have h5 := (((hasDerivAt_const b ((a - 3) ^ 2)).add h1).add h2).sub_const 3
  have h6 : HasDerivAt (fun t => fxyReal a t)
      (0 + a * 1 + (2 : ℕ) * (b + 4) ^ (2 - 1) * 1) b := h5
  convert h6 using 1
  push_cast
  ring

/- ### Claim theorems -/

/-- C1: for every pair of values `x`, `y` held in `params`, `solve_nonlinear`
writes exactly `(x−3)² + x·y + (y+4)² − 3` into `unknowns['f_xy']`; in
particular the objective is 22 at (0,0), −15 at (3,−4) and 47 at (5,2). -/
theorem solve_nonlinear_objective_formula (params unknowns resids : VarDict)
    (x y : ℚ) (hx : dictGet params "x" = some x)
    (hy : dictGet params "y" = some y) :
    run_fxy params unknowns resids =
        some ((x - 3) ^ 2 + x * y + (y + 4) ^ 2 - 3) ∧
      fxy 0 0 = 22 ∧ fxy 3 (-4) = -15 ∧ fxy 5 2 = 47 := by
  refine ⟨?_, by norm_num [fxy], by norm_num [fxy], by norm_num [fxy]⟩
  exact run_fxy_eq params unknowns resids x y hx hy

theorem solve_nonlinear_objective_formula_witness :
    run_fxy [("x", 3), ("y", -4)] [("f_xy", 0)] [] =
        some ((3 - 3) ^ 2 + 3 * (-4) + ((-4) + 4) ^ 2 - 3) ∧
      fxy 0 0 = 22 ∧ fxy 3 (-4) = -15 ∧ fxy 5 2 = 47 :=
  solve_nonlinear_objective_formula [("x", 3), ("y", -4)] [("f_xy", 0)] []
    3 (-4) rfl rfl

/-- C2: for every pair of values `x`, `y` held in `params`, the Jacobian dict
returned by `linearize` holds `2x − 6 + y` at key `('f_xy','x')` and
`2y + 8 + x` at key `('f_xy','y')`, and these entries are the exact
closed-form partial derivatives of the §4.1 objective expression at
`(x, y)` — not a finite-difference approximation. -/
theorem linearize_exact_gradient (params unknowns resids : VarDict)
    (x y : ℚ) (hx : dictGet params "x" = some x)
    (hy : dictGet params "y" = some y) :
    run_jac params unknowns resids ("f_xy", "x") = some (2 * x - 6 + y) ∧
    run_jac params unknowns resids ("f_xy", "y") = some (2 * y + 8 + x) ∧
    HasDerivAt (fun t => fxyReal t (y : ℝ)) (((2 * x - 6 + y : ℚ) : ℝ)) (x : ℝ) ∧
    HasDerivAt (fun t => fxyReal (x : ℝ) t) (((2 * y + 8 + x : ℚ) : ℝ)) (y : ℝ) := by
  refine ⟨run_jac_x_eq params unknowns resids x y hx hy,
    run_jac_y_eq params unknowns resids x y hx hy, ?_, ?_⟩
  · have h := fxyReal_hasDerivAt_fst (x : ℝ) (y : ℝ)
    convert h using 1
    push_cast
    ring
  · have h := fxyReal_hasDerivAt_snd (x : ℝ) (y : ℝ)
    convert h using 1
    push_cast
    ring

theorem linearize_exact_gradient_witness :
    run_jac [("x", 5), ("y", 2)] [] [] ("f_xy", "x") = some (2 * 5 - 6 + 2) ∧
    run_jac [("x", 5), ("y", 2)] [] [] ("f_xy", "y") = some (2 * 2 + 8 + 5) ∧
    HasDerivAt (fun t => fxyReal t ((2 : ℚ) : ℝ)) (((2 * 5 - 6 + 2 : ℚ) : ℝ)) ((5 : ℚ) : ℝ) ∧
    HasDerivAt (fun t => fxyReal ((5 : ℚ) : ℝ) t) (((2 * 2 + 8 + 5 : ℚ) : ℝ)) ((2 : ℚ) : ℝ) :=
  linearize_exact_gradient [("x", 5), ("y", 2)] [] [] 5 2 rfl rfl

/-- C3: `(20/3, −22/3)` is the unique simultaneous zero of the two
`linearize` partial-derivative entries `2x−6+y` and `2y+8+x`, the objective
value there is `−82/3`, and it is the global unconstrained minimum of the
objective: every other point has a value at least as large. -/
theorem unconstrained_global_minimum :
    (∀ x y : ℚ, (dfdx x y = 0 ∧ dfdy x y = 0) ↔ (x = 20 / 3 ∧ y = -22 / 3)) ∧
    fxy (20 / 3) (-22 / 3) = -82 / 3 ∧
    (∀ x y : ℚ, fxy (20 / 3) (-22 / 3) ≤ fxy x y) := by
  refine ⟨?_, by norm_num [fxy], ?_⟩
  · intro x y
    constructor
    · rintro ⟨h1, h2⟩
      unfold dfdx at h1
      unfold dfdy at h2
      constructor <;> linarith
    · rintro ⟨hx, hy⟩
      subst hx
      subst hy
      norm_num [dfdx, dfdy]
  · intro x y
    unfold fxy
    nlinarith [sq_nonneg (x - 20 / 3 + (y + 22 / 3) / 2), sq_nonneg (y + 22 / 3)]

/-- C4: on the feasible set `x − y ≥ 15`, `−50 ≤ x ≤ 50`, `−50 ≤ y ≤ 50`,
the objective never goes below `−325/12`, and the feasible point
`(43/6, −47/6)` attains exactly that value. -/
theorem constrained_minimum_bound (x y : ℚ) (hcon : x - y ≥ 15)
    (hx1 : -50 ≤ x) (hx2 : x ≤ 50) (hy1 : -50 ≤ y) (hy2 : y ≤ 50) :
    fxy x y ≥ -325 / 12 ∧
    fxy (43 / 6) (-47 / 6) = -325 / 12 ∧
    (43 : ℚ) / 6 - (-47 / 6) ≥ 15 ∧
    -50 ≤ (43 : ℚ) / 6 ∧ (43 : ℚ) / 6 ≤ 50 ∧
    -50 ≤ (-47 : ℚ) / 6 ∧ (-47 : ℚ) / 6 ≤ 50 := by
  refine ⟨?_, by norm_num [fxy], by norm_num, by norm_num, by norm_num,
    by norm_num, by norm_num⟩
  unfold fxy
  nlinarith [sq_nonneg (x - 43 / 6 + (y + 47 / 6) / 2), sq_nonneg (y + 47 / 6)]

theorem constrained_minimum_bound_witness :
    (8 : ℚ) - (-8) ≥ 15 ∧ (-50 : ℚ) ≤ 8 ∧ (8 : ℚ) ≤ 50 ∧
    (-50 : ℚ) ≤ -8 ∧ (-8 : ℚ) ≤ 50 ∧
    (fxy 8 (-8) ≥ -325 / 12 ∧
     fxy (43 / 6) (-47 / 6) = -325 / 12 ∧
     (43 : ℚ) / 6 - (-47 / 6) ≥ 15 ∧
     -50 ≤ (43 : ℚ) / 6 ∧ (43 : ℚ) / 6 ≤ 50 ∧
     -50 ≤ (-47 : ℚ) / 6 ∧ (-47 : ℚ) / 6 ≤ 50) :=
  ⟨by norm_num, by norm_num, by norm_num, by norm_num, by norm_num,
    constrained_minimum_bound 8 (-8) (by norm_num) (by norm_num)
      (by norm_num) (by norm_num) (by norm_num)⟩

/-- C5: for every `(x, y)` held in `params` and every nonzero step `h`, the
analytic Jacobian entries returned by `linearize` coincide exactly (in exact
rational arithmetic, hence within any tolerance) with the central-difference
numerical gradient of the `solve_nonlinear` objective with step `h`. -/
theorem analytic_gradient_matches_central_difference
    (params unknowns resids : VarDict) (x y h : ℚ)
    (hx : dictGet params "x" = some x) (hy : dictGet params "y" = some y)
    (hh : h ≠ 0) :
    run_jac params unknowns resids ("f_xy", "x") = some (centralDiffX x y h) ∧
    run_jac params unknowns resids ("f_xy", "y") = some (centralDiffY x y h) := by
  have hdx : centralDiffX x y h = dfdx x y := by
    unfold centralDiffX fxy dfdx
    field_simp
    ring
  have hdy : centralDiffY x y h = dfdy x y := by
    unfold centralDiffY fxy dfdy
    field_simp
    ring
  rw [hdx, hdy]
  exact ⟨run_jac_x_eq params unknowns resids x y hx hy,
    run_jac_y_eq params unknowns resids x y hx hy⟩

theorem analytic_gradient_matches_central_difference_witness :
    (1 : ℚ) ≠ 0 ∧
    (run_jac [("x", 1), ("y", 2)] [] [] ("f_xy", "x") = some (centralDiffX 1 2 1) ∧
     run_jac [("x", 1), ("y", 2)] [] [] ("f_xy", "y") = some (centralDiffY 1 2 1)) :=
  ⟨by norm_num,
    analytic_gradient_matches_central_difference [("x", 1), ("y", 2)] [] []
      1 2 1 rfl rfl (by norm_num)⟩

/-- C6: both evaluators are deterministic pure functions of `(x, y)`: any two
states holding the same `x` and `y` produce the same objective value and the
same Jacobian regardless of every other part of the state, the value produced
is always `fxy x y`, and re-running `solve_nonlinear` on its own output
returns the identical state again (no hidden state or history dependence). -/
theorem evaluators_deterministic_pure (p1 p2 u1 u2 r1 r2 : VarDict) (x y : ℚ)
    (hx1 : dictGet p1 "x" = some x) (hy1 : dictGet p1 "y" = some y)
    (hx2 : dictGet p2 "x" = some x) (hy2 : dictGet p2 "y" = some y) :
    run_fxy p1 u1 r1 = run_fxy p2 u2 r2 ∧
    run_fxy p1 u1 r1 = some (fxy x y) ∧
    linearize p1 u1 r1 = linearize p2 u2 r2 ∧
    solve_nonlinear p1 (dictSet u1 "f_xy" (fxy x y)) r1 =
      solve_nonlinear p1 u1 r1 := by
  refine ⟨?_, run_fxy_eq p1 u1 r1 x y hx1 hy1, ?_, ?_⟩
  · rw [run_fxy_eq p1 u1 r1 x y hx1 hy1, run_fxy_eq p2 u2 r2 x y hx2 hy2]
  · rw [linearize_eq p1 u1 r1 x y hx1 hy1, linearize_eq p2 u2 r2 x y hx2 hy2]
  · rw [solve_nonlinear_eq p1 (dictSet u1 "f_xy" (fxy x y)) r1 x y hx1 hy1,
      solve_nonlinear_eq p1 u1 r1 x y hx1 hy1, dictSet_dictSet_same]

theorem evaluators_deterministic_pure_witness :
    run_fxy [("x", 1), ("y", 2)] [] [] =
      run_fxy [("y", 2), ("x", 1)] [("z", 9)] [("w", 1)] ∧
    run_fxy [("x", 1), ("y", 2)] [] [] = some (fxy 1 2) ∧
    linearize [("x", 1), ("y", 2)] [] [] =
      linearize [("y", 2), ("x", 1)] [("z", 9)] [("w", 1)] ∧
    solve_nonlinear [("x", 1), ("y", 2)] (dictSet [] "f_xy" (fxy 1 2)) [] =
      solve_nonlinear [("x", 1), ("y", 2)] [] [] :=
  evaluators_deterministic_pure [("x", 1), ("y", 2)] [("y", 2), ("x", 1)]
    [] [("z", 9)] [] [("w", 1)] 1 2 rfl rfl rfl rfl

/-- C7: both evaluators are total: whenever `params` supplies values for `x`
and `y`, `solve_nonlinear` and `linearize` return a result (never the
`KeyError` / error branch), for any contents of the other dicts. -/
theorem evaluators_total (params unknowns resids : VarDict) (x y : ℚ)
    (hx : dictGet params "x" = some x) (hy : dictGet params "y" = some y) :
    (solve_nonlinear params unknowns resids).isSome = true ∧
    (linearize params unknowns resids).isSome = true := by
  rw [solve_nonlinear_eq params unknowns resids x y hx hy,
    linearize_eq params unknowns resids x y hx hy]
  exact ⟨rfl, rfl⟩

theorem evaluators_total_witness :
    (solve_nonlinear init_params init_unknowns init_resids).isSome = true ∧
    (linearize init_params init_unknowns init_resids).isSome = true :=
  evaluators_total init_params init_unknowns init_resids 0 0 rfl rfl

/-- C8: the objective expression embedded from `solve_nonlinear` (with its
`**2` squarings) computes, for every input, the same result as the
multiplication-form evaluator `(x−3)*(x−3) + x*y + (y+4)*(y+4) − 3`; in
exact arithmetic the two squaring strategies coincide. -/
theorem square_as_multiplication_equivalence :
    ∀ x y : ℚ, fxy x y = fxy_mulform x y := by
  intro x y
  unfold fxy fxy_mulform
  ring

/-- C9: the `__init__` defaults are `x = 0.0`, `y = 0.0` and a scalar
`f_xy = 0.0` (from `shape=1`), and running `solve_nonlinear` on that default
state sets `f_xy` to `22.0`. -/
theorem default_values_give_22 :
    dictGet init_params "x" = some 0 ∧
    dictGet init_params "y" = some 0 ∧
    dictGet init_unknowns "f_xy" = some 0 ∧
    run_fxy init_params init_unknowns init_resids = some 22 := by
  refine ⟨rfl, rfl, rfl, ?_⟩
  rw [run_fxy_eq init_params init_unknowns init_resids 0 0 rfl rfl]
  norm_num [fxy]

/-- C10: `solve_nonlinear` returns `params` and `resids` exactly as received
and changes `unknowns` only at key `'f_xy'` (every entry under any other key
is preserved, order included); `linearize` leaves all three argument dicts
untouched and returns a freshly built dict whose keys are exactly
`('f_xy','x')` and `('f_xy','y')`. -/
theorem solve_nonlinear_frame_linearize_keys (params unknowns resids : VarDict)
    (x y : ℚ) (hx : dictGet params "x" = some x)
    (hy : dictGet params "y" = some y) :
    solve_nonlinear params unknowns resids =
      some (params, dictSet unknowns "f_xy" (fxy x y), resids) ∧
    dictEraseKey (dictSet unknowns "f_xy" (fxy x y)) "f_xy" =
      dictEraseKey unknowns "f_xy" ∧
    linearize params unknowns resids =
      some [(("f_xy", "x"), dfdx x y), (("f_xy", "y"), dfdy x y)] ∧
    dictKeys [(("f_xy", "x"), dfdx x y), (("f_xy", "y"), dfdy x y)] =
      [("f_xy", "x"), ("f_xy", "y")] := by
  refine ⟨solve_nonlinear_eq params unknowns resids x y hx hy,
    dictEraseKey_dictSet unknowns "f_xy" (fxy x y), ?_, rfl⟩
  rw [linearize_eq params unknowns resids x y hx hy]
  rfl

theorem solve_nonlinear_frame_linearize_keys_witness :
    solve_nonlinear [("x", 1), ("y", 2)] [("f_xy", 0), ("g", 7)] [("s", 3)] =
      some ([("x", 1), ("y", 2)],
        dictSet [("f_xy", 0), ("g", 7)] "f_xy" (fxy 1 2), [("s", 3)]) ∧
    dictEraseKey (dictSet [("f_xy", 0), ("g", 7)] "f_xy" (fxy 1 2)) "f_xy" =
      dictEraseKey [("f_xy", 0), ("g", 7)] "f_xy" ∧
    linearize [("x", 1), ("y", 2)] [("f_xy", 0), ("g", 7)] [("s", 3)] =
      some [(("f_xy", "x"), dfdx 1 2), (("f_xy", "y"), dfdy 1 2)] ∧
    dictKeys [(("f_xy", "x"), dfdx 1 2), (("f_xy", "y"), dfdy 1 2)] =
      [("f_xy", "x"), ("f_xy", "y")] :=
  solve_nonlinear_frame_linearize_keys [("x", 1), ("y", 2)]
    [("f_xy", 0), ("g", 7)] [("s", 3)] 1 2 rfl rfl
